import Mathlib

/-!
Verification development for the geocode-commons-categories import pipeline.

Shallow embedding of the pipeline's pure cores, translated from the
TypeScript sources:

* `Geo` — ring merging, collinear simplification, point-in-polygon and
  relation-geometry parsing (src/import/fetch/geometry.ts).
* `Ewkt` — sampling ring simplification used by EWKT serialisation.
* `Retry` — the HTTP retry loop (src/import/utils/retry.ts).
* `Rel` — hierarchical level discovery (src/import/fetch/relations.ts) and
  the per-level processing loop of the orchestrator.
* `Wd` — the Wikidata batch client and wikidata-id extraction.
* `DbT` — the transform's geometry validation (src/scripts/import/database.ts).
* `Progress` — the progress tracker state machine (src/import/database/queries.ts).

Numbers are modelled over `ℚ`; the JavaScript double literal `1e-7` is
rendered as the exact rational `1/10^7`, and JavaScript division by zero
(which yields `NaN`/`±Infinity`) is modelled explicitly where it occurs.
-/

namespace Geo

/-- A coordinate pair `[x, y]`; the source stores points as `number[]` and
reads components with an `?? 0` default, which the pair representation makes
total by construction. -/
abbrev Point := ℚ × ℚ

/-- Tolerance `EPSILON = 1e-7` from `pointsEqual`. -/
def EPSILON : ℚ := 1 / 10000000

/-- Source `pointsEqual`: absolute-tolerance comparison of both components. -/
def pointsEqual (a b : Point) : Bool :=
  decide (|a.1 - b.1| < EPSILON) && decide (|a.2 - b.2| < EPSILON)

/-- First point of a way (`getWayEndpoints(...).first`, default `[0,0]`). -/
def wfirst (w : List Point) : Point := w.headD (0, 0)

/-- Last point of a way (`getWayEndpoints(...).last`, default `[0,0]`). -/
def wlast (w : List Point) : Point := w.getLastD (0, 0)

/-- The adjacency bucket for exact key `k`: indices of the ways of `wl`
whose first or last endpoint is exactly `k`, in insertion order.  The source
keys its adjacency `Map` by the string `` `${x},${y}` ``, which identifies
points exactly; each way pushes one entry for its first endpoint and one for
its last, in input order. -/
def bucket (wl : List (List Point)) (k : Point) : List ℕ :=
  (List.range wl.length).foldr (fun i acc =>
    (let w := wl.getD i []
     (if wfirst w = k then [i] else []) ++ (if wlast w = k then [i] else [])) ++ acc) []

/-- Scan of the end-extension candidate list (`// Try to extend from the end`):
the first unused way whose first endpoint equals the ring tail is appended
forward (skipping the duplicated point), one whose last endpoint equals the
tail is appended reversed. -/
def scanTail (wl : List (List Point)) (used : List Bool) (ring : List Point) :
    List ℕ → Option (ℕ × List Point)
  | [] => none
  | i :: rest =>
    if used.getD i true then scanTail wl used ring rest
    else if pointsEqual (wfirst (wl.getD i [])) (wlast ring) then
      some (i, ring ++ (wl.getD i []).tail)
    else if pointsEqual (wlast (wl.getD i [])) (wlast ring) then
      some (i, ring ++ (wl.getD i []).reverse.tail)
    else scanTail wl used ring rest

/-- Scan of the start-extension candidate list (`// Try to extend from the
start`): prepend forward (dropping the duplicated last point) or reversed. -/
def scanHead (wl : List (List Point)) (used : List Bool) (ring : List Point) :
    List ℕ → Option (ℕ × List Point)
  | [] => none
  | i :: rest =>
    if used.getD i true then scanHead wl used ring rest
    else if pointsEqual (wlast (wl.getD i [])) (wfirst ring) then
      some (i, (wl.getD i []).dropLast ++ ring)
    else if pointsEqual (wfirst (wl.getD i [])) (wfirst ring) then
      some (i, (wl.getD i []).reverse.dropLast ++ ring)
    else scanHead wl used ring rest

/-- One iteration of the `while (extended)` loop body: try the tail first,
then the head. Returns the way consumed and the extended ring, or `none`
when neither direction extends. -/
def step (wl : List (List Point)) (used : List Bool) (ring : List Point) :
    Option (ℕ × List Point) :=
  match scanTail wl used ring (bucket wl (wlast ring)) with
  | some r => some r
  | none => scanHead wl used ring (bucket wl (wfirst ring))

/-- The `while (extended)` loop with explicit fuel; `none` means the fuel ran
out before the loop's natural exit.  The termination theorem shows fuel
`wl.length + 1` always suffices, mirroring the source's guarantee that each
iteration marks one previously unused way as used. -/
def extendLoopF (wl : List (List Point)) :
    ℕ → List Bool → List Point → Option (List Point × List Bool)
  | 0, _, _ => none
  | fuel + 1, used, ring =>
    match step wl used ring with
    | none => some (ring, used)
    | some (i, ring2) => extendLoopF wl fuel (used.set i true) ring2

/-- Lines 143-153: a walked ring of fewer than 3 points is discarded;
otherwise it is closed by appending its first point unless the last point
already equals it within tolerance. -/
def emitRing (ring : List Point) : List (List Point) :=
  if 3 ≤ ring.length then
    [if pointsEqual (wfirst ring) (wlast ring) then ring else ring ++ [wfirst ring]]
  else []

/-- The outer `for (const startWay of wayList)` loop: each unused way seeds a
ring which is extended to exhaustion and then emitted through `emitRing`.
The `none` fallback mirrors fuel exhaustion of the inner loop and is proved
unreachable. -/
def mergeOuterLoop (wl : List (List Point)) : List ℕ → List Bool → List (List Point)
  | [], _ => []
  | idx :: rest, used =>
    if used.getD idx true then mergeOuterLoop wl rest used
    else
      match extendLoopF wl (wl.length + 1) (used.set idx true) (wl.getD idx []) with
      | some (ring, used2) => emitRing ring ++ mergeOuterLoop wl rest used2
      | none => mergeOuterLoop wl rest (used.set idx true)

/-- Source `mergeWaysIntoRings` (geometry.ts lines 39-157).  Note the two shortcuts:
an empty input yields no rings, and a single way is returned unchanged —
without the closure or minimum-length checks of the general path.  The
general path skips ways with no endpoints (empty ways). -/
def mergeWaysIntoRings (ways : List (List Point)) : List (List Point) :=
  match ways with
  | [] => []
  | [w] => [w]
  | _ =>
    let wl := ways.filter (fun w => !w.isEmpty)
    mergeOuterLoop wl (List.range wl.length) (List.replicate wl.length false)

/-- Variant of the outer loop that propagates inner-loop fuel exhaustion
instead of falling back; used to state that the merge loop terminates within
its fragment-count bound. -/
def mergeOuterLoopOpt (wl : List (List Point)) :
    List ℕ → List Bool → Option (List (List Point))
  | [], _ => some []
  | idx :: rest, used =>
    if used.getD idx true then mergeOuterLoopOpt wl rest used
    else
      match extendLoopF wl (wl.length + 1) (used.set idx true) (wl.getD idx []) with
      | some (ring, used2) => (mergeOuterLoopOpt wl rest used2).map (emitRing ring ++ ·)
      | none => none

/-- Function `mergeWaysIntoRings` with explicit detection of fuel exhaustion. -/
def mergeWaysIntoRingsOpt (ways : List (List Point)) : Option (List (List Point)) :=
  match ways with
  | [] => some []
  | [w] => some [w]
  | _ =>
    let wl := ways.filter (fun w => !w.isEmpty)
    mergeOuterLoopOpt wl (List.range wl.length) (List.replicate wl.length false)

/-- Source `simplifyRing` (geometry.ts lines 176-208): drop interior points that are
collinear with the previously kept point and the next point, judged by a
cross-product with tolerance `1e-7`; the first and last points are always
kept.  The loop indices `1 .. ring.length - 2` are rendered by
`List.range' 1 (ring.length - 2)`. -/
def simplifyRing (ring : List Point) (tolerance : ℚ := 1 / 10000000) : List Point :=
  if ring.length ≤ 3 then ring
  else
    let core := (List.range' 1 (ring.length - 2)).foldl (fun acc i =>
      let prev := acc.getLastD (0, 0)
      let curr := ring.getD i (0, 0)
      let next := ring.getD (i + 1) (0, 0)
      let crossProduct :=
        (curr.1 - prev.1) * (next.2 - prev.2) - (curr.2 - prev.2) * (next.1 - prev.1)
      if tolerance < |crossProduct| then acc ++ [curr] else acc) [ring.getD 0 (0, 0)]
    core ++ [ring.getLastD (0, 0)]

/-- JavaScript comparison `x < num / den` for doubles, modelled over `ℚ`:
when `den = 0` JavaScript yields `±Infinity` (or `NaN` when also `num = 0`),
so the comparison is true exactly when `num > 0`; `x < NaN` and
`x < -Infinity` are both false.  (Assumes the zero denominator arises as
`+0`, which holds for the inputs considered here: `ℚ` has no `-0`.) -/
def jsLtDiv (x num den : ℚ) : Bool :=
  if den = 0 then decide (0 < num) else decide (x < num / den)

/-- Source `isPointInPolygon` (geometry.ts lines 312-328) exactly as written,
including the defective intersection expression
`x < ((xj - xi) * (y - yi)) / (yj - yi + xi)` in which `+ xi` sits inside
the denominator. -/
def isPointInPolygon (point : Point) (polygon : List Point) : Bool :=
  let x := point.1
  let y := point.2
  (List.range polygon.length).foldl (fun inside i =>
    let j := if i = 0 then polygon.length - 1 else i - 1
    let xi := (polygon.getD i (0, 0)).1
    let yi := (polygon.getD i (0, 0)).2
    let xj := (polygon.getD j (0, 0)).1
    let yj := (polygon.getD j (0, 0)).2
    let intersect :=
      (decide (y < yi) != decide (y < yj)) && jsLtDiv x ((xj - xi) * (y - yi)) (yj - yi + xi)
    if intersect then !inside else inside) false

/-- Modelled from the spec: the standard ray-casting point-in-polygon test
(`x < (xj - xi) * (y - yi) / (yj - yi) + xi`), which §4.4 names as the
containment test; stated here to compare with the source's
`isPointInPolygon`. -/
def isPointInPolygonStd (point : Point) (polygon : List Point) : Bool :=
  let x := point.1
  let y := point.2
  (List.range polygon.length).foldl (fun inside i =>
    let j := if i = 0 then polygon.length - 1 else i - 1
    let xi := (polygon.getD i (0, 0)).1
    let yi := (polygon.getD i (0, 0)).2
    let xj := (polygon.getD j (0, 0)).1
    let yj := (polygon.getD j (0, 0)).2
    let intersect :=
      (decide (y < yi) != decide (y < yj)) &&
        decide (x < (xj - xi) * (y - yi) / (yj - yi) + xi)
    if intersect then !inside else inside) false

/-- A relation member (`{ type, ref, role }`). -/
structure Member where
  type : String
  ref : ℕ
  role : String
deriving DecidableEq

/-- Source `parseWayGeometry`: the stored way geometry is a list of
`{ lat, lon }` records (modelled as `(lat, lon)` pairs), mapped to `[lon, lat]`
points; absent or empty geometry yields `null`. -/
def parseWayGeometry (geometry : Option (List (ℚ × ℚ))) : Option (List Point) :=
  match geometry with
  | none => none
  | some pts => if pts.isEmpty then none else some (pts.map (fun pt => (pt.2, pt.1)))

/-- GeoJSON result of `parseRelationGeometry`. -/
inductive PGeom where
  | polygon (rings : List (List Point))
  | multiPolygon (polys : List (List (List Point)))
deriving DecidableEq

/-- Role routing of `parseRelationGeometry`'s member loop: members of type
`way` found in the ways map with non-null parsed geometry, whose role passes
the given predicate. -/
def memberWays (members : List Member) (waysMap : List (ℕ × Option (List (ℚ × ℚ))))
    (roleTest : String → Bool) : List (List Point) :=
  members.foldr (fun m acc =>
    if m.type = "way" then
      match waysMap.lookup m.ref with
      | none => acc
      | some g =>
        match parseWayGeometry g with
        | none => acc
        | some coords => if roleTest m.role then coords :: acc else acc
    else acc) []

/-- Inner rings attached to a given outer ring: non-empty rings whose first
point passes `isPointInPolygon` against the outer. -/
def matchInners (inners : List (List Point)) (outer : List Point) : List (List Point) :=
  inners.filter (fun inner => !inner.isEmpty && isPointInPolygon (inner.headD (0, 0)) outer)

/-- Source `parseRelationGeometry` (geometry.ts lines 214-307): partition member
ways into outer (role `outer` or empty) and inner fragments, merge each side
into rings, simplify, then emit a `MultiPolygon` when more than one outer
ring exists and a `Polygon` otherwise; inner rings are attached to an outer
exactly when their first point passes `isPointInPolygon`. -/
def parseRelationGeometry (members : List Member)
    (waysMap : List (ℕ × Option (List (ℚ × ℚ)))) : Option PGeom :=
  if members.isEmpty then none
  else
    let outerWays := memberWays members waysMap (fun r => r = "outer" || r = "")
    let innerWays := memberWays members waysMap (fun r => r = "inner")
    if outerWays.isEmpty then none
    else
      let outerRings := mergeWaysIntoRings outerWays
      if outerRings.isEmpty then none
      else
        let innerRings := mergeWaysIntoRings innerWays
        let simplifiedOuterRings := outerRings.map (fun ring => simplifyRing ring)
        let simplifiedInnerRings := innerRings.map (fun ring => simplifyRing ring)
        if 1 < simplifiedOuterRings.length then
          some (PGeom.multiPolygon (simplifiedOuterRings.map (fun outer =>
            outer :: matchInners simplifiedInnerRings outer)))
        else
          let outer0 := simplifiedOuterRings.getD 0 []
          some (PGeom.polygon (outer0 :: matchInners simplifiedInnerRings outer0))

end Geo

namespace Ewkt

/-- Source `simplifyRing` of the EWKT conversion module: uniform sampling used by
`geometryToEWKT` with `MAX_POINTS_PER_RING = 500`.  When
`coords.length > targetMaxPoints`, the loop
`for (let i = 0; i < coords.length; i += step)` keeps the points at indices
`0, step, 2*step, …`, where `step = Math.ceil(coords.length / targetMaxPoints)`;
those indices are rendered as `k * step` for `k < ⌈coords.length / step⌉`.
The final point is appended when it differs (exact `!==` comparison on either
coordinate) from the last sampled point.  The sampled indices are
`k * step` for `k < ⌈coords.length / step⌉` (`sampledPoints`), and
`simplifyRing` itself follows below. -/
def sampledPoints (coords : List Geo.Point) (step : ℕ) : List Geo.Point :=
  (List.range ((coords.length + step - 1) / step)).map (fun k => coords.getD (k * step) (0, 0))

/-- See `simplifyRing`: `step = Math.ceil(coords.length / targetMaxPoints)`. -/
def sampleStep (n targetMaxPoints : ℕ) : ℕ :=
  (n + targetMaxPoints - 1) / targetMaxPoints

def simplifyRing (coords : List Geo.Point) (targetMaxPoints : ℕ) : List Geo.Point :=
  if coords.length ≤ targetMaxPoints then coords
  else
    if (sampledPoints coords (sampleStep coords.length targetMaxPoints)).getLastD (0, 0)
        ≠ coords.getLastD (0, 0) then
      sampledPoints coords (sampleStep coords.length targetMaxPoints) ++ [coords.getLastD (0, 0)]
    else sampledPoints coords (sampleStep coords.length targetMaxPoints)

end Ewkt

namespace Retry

/-- Constant `RETRY_CONFIG.MAX_ATTEMPTS`. -/
def MAX_ATTEMPTS : ℕ := 3

/-- Constant `RETRY_CONFIG.BASE_DELAY_MS`. -/
def BASE_DELAY_MS : ℕ := 1000

/-- Outcome of one `fetch` call: a transport error (rejected promise), or a
response with an HTTP status whose body then parses as JSON or not. -/
inductive Outcome where
  | err
  | resp (status : ℕ) (goodJson : Bool)
deriving DecidableEq

/-- Predicate `res.ok`: status in 200-299. -/
def okStatus (s : ℕ) : Bool := decide (200 ≤ s) && decide (s < 300)

/-- Status `429` or one of `RETRYABLE_SERVER_ERRORS = [500, 502, 503, 504]`. -/
def retryableStatus (s : ℕ) : Bool :=
  s == 429 || s == 500 || s == 502 || s == 503 || s == 504

/-- Result classification of `fetchWithRetry`. -/
inductive RetryResult where
  | success
  | failNet
  | failJson
  | failHttp (s : ℕ)
  | failMax
deriving DecidableEq

/-- Run of `fetchWithRetry`, observed as: number of `fetch` calls made, the
list of backoff sleeps performed (in ms), and the final classification. -/
structure Run where
  calls : ℕ
  delays : List ℕ
  result : RetryResult
deriving DecidableEq

/-- The retry loop `for (let attempt = 0; attempt < MAX_ATTEMPTS; attempt++)`
of `fetchWithRetry` (retry.ts lines 24-77): a transport error or a retryable
status sleeps `baseDelayMs * 2 ** attempt` and retries while
`attempt < MAX_ATTEMPTS - 1`; an ok response returns (failing terminally on
bad JSON); any other status fails terminally.  `fuel` counts the remaining
loop iterations; the post-loop `'Max retries exceeded'` failure corresponds
to `fuel = 0`. -/
def retryGo (baseDelayMs : ℕ) (o : ℕ → Outcome) : ℕ → ℕ → Run
  | _, 0 => ⟨0, [], .failMax⟩
  | attempt, fuel + 1 =>
    match o attempt with
    | .err =>
      if attempt < MAX_ATTEMPTS - 1 then
        ⟨(retryGo baseDelayMs o (attempt + 1) fuel).calls + 1,
          baseDelayMs * 2 ^ attempt :: (retryGo baseDelayMs o (attempt + 1) fuel).delays,
          (retryGo baseDelayMs o (attempt + 1) fuel).result⟩
      else ⟨1, [], .failNet⟩
    | .resp s goodJson =>
      if okStatus s then ⟨1, [], if goodJson then .success else .failJson⟩
      else if retryableStatus s && decide (attempt < MAX_ATTEMPTS - 1) then
        ⟨(retryGo baseDelayMs o (attempt + 1) fuel).calls + 1,
          baseDelayMs * 2 ^ attempt :: (retryGo baseDelayMs o (attempt + 1) fuel).delays,
          (retryGo baseDelayMs o (attempt + 1) fuel).result⟩
      else ⟨1, [], .failHttp s⟩

/-- Source `fetchWithRetry`, with the sequence of fetch outcomes supplied as an
oracle indexed by attempt number. -/
def fetchWithRetry (baseDelayMs : ℕ) (o : ℕ → Outcome) : Run :=
  retryGo baseDelayMs o 0 MAX_ATTEMPTS

/-- An attempt outcome the loop retries: transport error, or a non-ok
response with a retryable status. -/
def retryableOutcome : Outcome → Bool
  | .err => true
  | .resp s _ => !okStatus s && retryableStatus s

/-- An attempt outcome that is an ok response with well-formed JSON. -/
def successOutcome : Outcome → Bool
  | .resp s goodJson => okStatus s && goodJson
  | .err => false

end Retry

/-- Auxiliary for `jsSetDedup`: walk the list keeping the elements not seen
before, threading the set of seen elements. -/
def jsSetDedupAux {α : Type _} [DecidableEq α] (seen : List α) : List α → List α
  | [] => []
  | x :: xs =>
    if x ∈ seen then jsSetDedupAux seen xs else x :: jsSetDedupAux (x :: seen) xs

/-- JavaScript `[...new Set(xs)]`: deduplication keeping the first occurrence of each
element, in order — the iteration order of a JavaScript `Set`. -/
def jsSetDedup {α : Type _} [DecidableEq α] (l : List α) : List α :=
  jsSetDedupAux [] l

namespace Rel

/-- The levels-3-and-up loop of `fetchAllRelationIds` (relations.ts lines
26-52): at each level, collect the children of every current parent, then
deduplicate; an empty level is skipped with the parent set left unchanged,
a non-empty level is recorded and becomes the new parent set. -/
def fetchLevelsAux (childIdsOf : ℕ → ℕ → List ℕ) :
    List ℕ → List ℕ → List (ℕ × List ℕ)
  | _, [] => []
  | parentRelations, level :: rest =>
    let uniqueChildIds :=
      jsSetDedup ((parentRelations.map (fun p => childIdsOf p level)).flatten)
    if uniqueChildIds.isEmpty then fetchLevelsAux childIdsOf parentRelations rest
    else (level, uniqueChildIds) :: fetchLevelsAux childIdsOf uniqueChildIds rest

/-- Source `fetchAllRelationIds` (relations.ts lines 12-56), with the Overpass
queries abstracted: `level2Ids` is the country-root result and
`childIdsOf p L` the child-within-parent result for parent `p` at level `L`.
Level 2 is recorded only when non-empty; levels 3 to `maxLevel` follow the
skip-on-empty rule of `fetchLevelsAux`. -/
def fetchAllRelationIds (childIdsOf : ℕ → ℕ → List ℕ) (level2Ids : List ℕ)
    (maxLevel : ℕ) : List (ℕ × List ℕ) :=
  (if level2Ids.isEmpty then [] else [(2, level2Ids)]) ++
    fetchLevelsAux childIdsOf level2Ids (List.range' 3 (maxLevel - 2))

/-- Modelled from the spec: `HIERARCHICAL_IMPORT.MIN_ADMIN_LEVEL` — the
constants module `src/scripts/constants.ts` is not among the sources; §3 and
the glossary give the admin-level range 2–11, and `initializeProgress`
starts at level 2. -/
def MIN_ADMIN_LEVEL : ℕ := 2

/-- Modelled from the spec: `HIERARCHICAL_IMPORT.MAX_ADMIN_LEVEL` (see
`MIN_ADMIN_LEVEL`). -/
def MAX_ADMIN_LEVEL : ℕ := 11

/-- The per-level processing loop of `importCountry`
(hierarchical/index.ts lines 43-90) restricted to its control flow: a level
whose relation list is absent or empty hits
`console.log(..., 'stopping'); break`, so the returned list is the prefix of
levels that actually get their geometry fetched and persisted. -/
def processedLevelsAux (relationMap : List (ℕ × List ℕ)) : List ℕ → List ℕ
  | [] => []
  | level :: rest =>
    match relationMap.lookup level with
    | none => []
    | some relationIds =>
      if relationIds.isEmpty then []
      else level :: processedLevelsAux relationMap rest

/-- Levels processed by `importCountry` for a given relation map. -/
def processedLevels (relationMap : List (ℕ × List ℕ)) : List ℕ :=
  processedLevelsAux relationMap
    (List.range' MIN_ADMIN_LEVEL (MAX_ADMIN_LEVEL - MIN_ADMIN_LEVEL + 1))

end Rel

namespace Wd

/-- JavaScript `String.prototype.replace` with a string pattern: replace the first
occurrence only. -/
def replaceFirst (s pat repl : List Char) : List Char :=
  match (List.range (s.length + 1)).find? (fun i => pat.isPrefixOf (s.drop i)) with
  | none => s
  | some i => s.take i ++ repl ++ s.drop (i + pat.length)

/-- Source `extractWikidataIds` of the import orchestrator: collect the `wikidata`
tag of each boundary, then strip the entity-URL prefix and — via
`.replace('Q', '')` — the first `Q`. -/
def extractWikidataIds (wikidataTags : List (Option String)) : List String :=
  (wikidataTags.filterMap id).map (fun id =>
    String.mk (replaceFirst
      (replaceFirst id.data "http://www.wikidata.org/entity/".data []) "Q".data []))

/-- Source `extractWikidataId` (database.ts lines 229-231): strips only the
entity-URL prefix. -/
def extractWikidataId (wikidataTag : String) : String :=
  String.mk (replaceFirst wikidataTag.data "http://www.wikidata.org/entity/".data [])

/-- The pattern `^Q[0-9]+$`. -/
def matchesQid (s : String) : Bool :=
  match s.data with
  | 'Q' :: rest => !rest.isEmpty && rest.all Char.isDigit
  | _ => false

/-- A Wikidata entity as read by the batch client: the `missing` marker and
the value of `claims.P373[0].mainsnak.datavalue.value` when every link of
that optional chain exists. -/
structure WdEntity where
  missing : Bool
  value : Option String
deriving DecidableEq

/-- What one batch request produces after the error handling of
`fetchWikimediaCategoriesBatch`: a whole-batch failure (transport error,
non-2xx, malformed JSON — all caught), a response without an `entities`
object, or the `entities` entries. -/
inductive BatchOutcome where
  | failure
  | response (entities : Option (List (String × WdEntity)))
deriving DecidableEq

/-- JavaScript `Map.prototype.set`: overwrite in place when the key exists, append
otherwise. -/
def mapSet : List (String × String) → String → String → List (String × String)
  | [], k, v => [(k, v)]
  | (k0, v0) :: t, k, v =>
    if k0 = k then (k0, v) :: t else (k0, v0) :: mapSet t k v

/-- One iteration of the entities loop: skip entries with `missing`, insert
`id → category` when the P373 value is truthy (present and non-empty). -/
def procStep (categoryMap : List (String × String)) (en : String × WdEntity) :
    List (String × String) :=
  if en.2.missing then categoryMap
  else
    match en.2.value with
    | some category =>
      if category = "" then categoryMap else mapSet categoryMap en.1 category
    | none => categoryMap

/-- The per-batch body: iterate the `entities` entries through `procStep`.
A batch failure contributes `{ entities: {} }`, hence the empty map. -/
def processBatch : BatchOutcome → List (String × String)
  | .failure => []
  | .response none => []
  | .response (some es) => es.foldl procStep []

/-- Batching `for (let i = 0; i < len; i += batchSize)` with
`slice(i, i + batchSize)`: batch `k` starts at index `k * batchSize`, and
there are `⌈len / batchSize⌉` batches. -/
def toBatches {α : Type _} (batchSize : ℕ) (l : List α) : List (List α) :=
  (List.range ((l.length + batchSize - 1) / batchSize)).map
    (fun k => (l.drop (k * batchSize)).take batchSize)

/-- Constant `BATCH_SIZES.WIKIDATA`. -/
def WIKIDATA_BATCH : ℕ := 50

/-- Source `fetchWikimediaCategoriesBatch` with the HTTP layer abstracted into an
oracle `resp` from 1-based batch number to `BatchOutcome`: deduplicate and
filter the ids, process each batch, and merge the per-batch maps into the
final map in order. -/
def fetchWikimediaCategoriesBatch (wikidataIds : List String)
    (resp : ℕ → BatchOutcome) : List (String × String) :=
  (List.range (toBatches WIKIDATA_BATCH
      ((jsSetDedup wikidataIds).filter (fun id => id ≠ ""))).length).foldl
    (fun finalMap k =>
      (processBatch (resp (k + 1))).foldl (fun m e => mapSet m e.1 e.2) finalMap) []

end Wd

namespace DbT

/-- An enriched record (`AdminBoundaryImport`). -/
structure AdminBoundaryImport where
  wikidata_id : String
  commons_category : String
  admin_level : ℕ
  name : String
  geom : String
deriving DecidableEq

/-- Indices at which `pat` occurs in `s`, ascending. -/
def occIdxs (pat s : List Char) : List ℕ :=
  (List.range (s.length + 1)).filter (fun i => pat.isPrefixOf (s.drop i))

/-- The capture group of the regular expression `POLYGON\(\((.+)\)\)`
applied to `s`: the match starts at the leftmost occurrence of
`POLYGON((` and the greedy `(.+)` extends to the last later occurrence of
`))`, with at least one captured character.  (The strings validated here are
single-line, so the newline exclusion of `.` is immaterial.) -/
def polygonCapture (s : List Char) : Option (List Char) :=
  match (occIdxs "POLYGON((".data s).head? with
  | none => none
  | some i =>
    match ((occIdxs "))".data s).filter (fun j => i + 9 < j)).getLast? with
    | none => none
    | some j => some ((s.drop (i + 9)).take (j - (i + 9)))

/-- The per-record check of `validateGeometries` (database.ts lines 287-301):
the EWKT text must start with `SRID=4326;POLYGON((`, and the capture of
`POLYGON\(\((.+)\)\)` must split on `,` into at least 4 pieces (a string
with `c` commas splits into `c + 1` pieces). -/
def isValidGeom (geom : String) : Bool :=
  if !("SRID=4326;POLYGON((".data.isPrefixOf geom.data) then false
  else
    match polygonCapture geom.data with
    | none => false
    | some coords => decide (4 ≤ coords.count ',' + 1)

/-- Source `validateGeometries`: the kept records and the invalid count. -/
def validateGeometries (boundaries : List AdminBoundaryImport) :
    List AdminBoundaryImport × ℕ :=
  boundaries.foldl (fun acc boundary =>
    if isValidGeom boundary.geom then (acc.1 ++ [boundary], acc.2)
    else (acc.1, acc.2 + 1)) ([], 0)

end DbT

namespace Progress

/-- The `status` enum of the progress table. -/
inductive PStatus where
  | pending
  | inProgress
  | completed
  | failed
deriving DecidableEq

/-- One `import_progress` row. -/
structure Row where
  currentAdminLevel : ℕ
  status : PStatus
  relationsFetched : ℕ
  errors : ℕ
  startedAt : Bool
  completedAt : Bool
  lastError : Option String
deriving DecidableEq

/-- Source `initializeProgress` (queries.ts lines 141-160): insert a fresh
`in_progress` row, or on conflict set `status`, `current_admin_level`,
`started_at` and clear `completed_at` — leaving `relations_fetched`,
`errors` and `last_error` untouched. -/
def initProgress : Option Row → Option Row
  | none => some ⟨2, .inProgress, 0, 0, true, false, none⟩
  | some r => some { r with
      status := .inProgress
      currentAdminLevel := 2
      startedAt := true
      completedAt := false }

/-- The optional column assignments of `updateProgress`. -/
structure Updates where
  currentAdminLevel : Option ℕ := none
  relationsFetched : Option ℕ := none
  errors : Option ℕ := none
  status : Option PStatus := none
  lastError : Option String := none

/-- Source `updateProgress` (queries.ts lines 165-216): apply each provided
assignment; when the provided status is `completed`, additionally set
`completed_at = NOW()`.  An `UPDATE` against an absent row changes
nothing. -/
def updateProgress (u : Updates) : Option Row → Option Row
  | none => none
  | some r => some { r with
      currentAdminLevel := u.currentAdminLevel.getD r.currentAdminLevel
      relationsFetched := u.relationsFetched.getD r.relationsFetched
      errors := u.errors.getD r.errors
      status := u.status.getD r.status
      lastError := match u.lastError with
        | some e => some e
        | none => r.lastError
      completedAt := if u.status = some .completed then true else r.completedAt }

/-- Source `markCompleted`. -/
def markCompleted : Option Row → Option Row :=
  updateProgress { status := some .completed }

/-- Source `markFailed`. -/
def markFailed (error : String) : Option Row → Option Row :=
  updateProgress { status := some .failed, lastError := some error }

/-- The progress-tracker operations performed by `importCountry`:
initialisation at import start, the per-level update, and the two terminal
marks. -/
inductive Op where
  | init
  | levelUpdate (currentAdminLevel relationsFetched : ℕ)
  | complete
  | fail (error : String)

/-- Apply one tracker operation. -/
def runOp : Op → Option Row → Option Row
  | .init => initProgress
  | .levelUpdate lvl cnt =>
    updateProgress { currentAdminLevel := some lvl, relationsFetched := some cnt }
  | .complete => markCompleted
  | .fail e => markFailed e

/-- Apply a sequence of tracker operations. -/
def runOps (ops : List Op) (s : Option Row) : Option Row :=
  ops.foldl (fun s op => runOp op s) s

/-- The consistency predicate the amended claim asserts of every reachable
row: `completed` rows carry `completed_at`, `failed` rows carry
`last_error`. -/
def rowConsistent : Option Row → Bool
  | none => true
  | some r =>
    (r.status != .completed || r.completedAt) &&
      (r.status != .failed || r.lastError.isSome)

end Progress

/-! ## Helper lemmas -/

theorem pointsEqual_refl (p : Geo.Point) : Geo.pointsEqual p p = true := by
  simp only [Geo.pointsEqual, sub_self, abs_zero, Geo.EPSILON]
  norm_num

theorem wfirst_append_singleton (ring : List Geo.Point) (x : Geo.Point)
    (h : ring ≠ []) : Geo.wfirst (ring ++ [x]) = Geo.wfirst ring := by
  obtain ⟨a, t, rfl⟩ := List.exists_cons_of_ne_nil h
  simp [Geo.wfirst]

theorem wlast_append_singleton (ring : List Geo.Point) (x : Geo.Point) :
    Geo.wlast (ring ++ [x]) = x := by
  simp [Geo.wlast]

theorem emitRing_mem (ring r : List Geo.Point) (h : r ∈ Geo.emitRing ring) :
    3 ≤ r.length ∧ Geo.pointsEqual (Geo.wfirst r) (Geo.wlast r) = true := by
  unfold Geo.emitRing at h
  split at h
  · rename_i hlen
    simp only [List.mem_singleton] at h
    subst h
    split
    · exact ⟨hlen, by assumption⟩
    · have hne : ring ≠ [] := by
        intro hnil
        subst hnil
        simp at hlen
      refine ⟨by simpa using Nat.le_succ_of_le hlen, ?_⟩
      rw [wfirst_append_singleton ring _ hne, wlast_append_singleton]
      exact pointsEqual_refl _
  · simp at h

theorem mergeOuterLoop_mem (wl : List (List Geo.Point)) :
    ∀ (idxs : List ℕ) (used : List Bool) (r : List Geo.Point),
      r ∈ Geo.mergeOuterLoop wl idxs used →
      3 ≤ r.length ∧ Geo.pointsEqual (Geo.wfirst r) (Geo.wlast r) = true := by
  intro idxs
  induction idxs with
  | nil => intro used r h; simp [Geo.mergeOuterLoop] at h
  | cons idx rest ih =>
    intro used r h
    rw [Geo.mergeOuterLoop] at h
    split at h
    · exact ih _ r h
    · split at h
      · rename_i ring used2 _
        rcases List.mem_append.mp h with h1 | h2
        · exact emitRing_mem _ r h1
        · exact ih _ r h2
      · exact ih _ r h

theorem scanTail_unused (wl : List (List Geo.Point)) (used : List Bool)
    (ring : List Geo.Point) :
    ∀ (l : List ℕ) (i : ℕ) (r2 : List Geo.Point),
      Geo.scanTail wl used ring l = some (i, r2) → used.getD i true = false := by
  intro l
  induction l with
  | nil => intro i r2 h; simp [Geo.scanTail] at h
  | cons a t ih =>
    intro i r2 h
    rw [Geo.scanTail] at h
    split at h
    · exact ih i r2 h
    · rename_i hu
      split at h
      · cases h
        simpa using hu
      · split at h
        · cases h
          simpa using hu
        · exact ih i r2 h

theorem scanHead_unused (wl : List (List Geo.Point)) (used : List Bool)
    (ring : List Geo.Point) :
    ∀ (l : List ℕ) (i : ℕ) (r2 : List Geo.Point),
      Geo.scanHead wl used ring l = some (i, r2) → used.getD i true = false := by
  intro l
  induction l with
  | nil => intro i r2 h; simp [Geo.scanHead] at h
  | cons a t ih =>
    intro i r2 h
    rw [Geo.scanHead] at h
    split at h
    · exact ih i r2 h
    · rename_i hu
      split at h
      · cases h
        simpa using hu
      · split at h
        · cases h
          simpa using hu
        · exact ih i r2 h

theorem step_unused (wl : List (List Geo.Point)) (used : List Bool)
    (ring : List Geo.Point) (i : ℕ) (r2 : List Geo.Point)
    (h : Geo.step wl used ring = some (i, r2)) : used.getD i true = false := by
  unfold Geo.step at h
  split at h
  · rename_i heq
    cases h
    exact scanTail_unused wl used ring _ _ _ heq
  · exact scanHead_unused wl used ring _ _ _ h

theorem count_false_set (l : List Bool) :
    ∀ i : ℕ, l.getD i true = false → (l.set i true).count false < l.count false := by
  induction l with
  | nil => intro i h; simp at h
  | cons b t ih =>
    intro i h
    cases i with
    | zero =>
      simp only [List.getD_cons_zero] at h
      subst h
      simp [List.count_cons]
    | succ i =>
      simp only [List.getD_cons_succ] at h
      have := ih i h
      have hset : (b :: t).set (i + 1) true = b :: t.set i true := rfl
      rw [hset]
      simp only [List.count_cons]
      omega

theorem extendLoopF_length (wl : List (List Geo.Point)) :
    ∀ (fuel : ℕ) (used : List Bool) (ring r : List Geo.Point) (u2 : List Bool),
      Geo.extendLoopF wl fuel used ring = some (r, u2) → u2.length = used.length := by
  intro fuel
  induction fuel with
  | zero => intro used ring r u2 h; simp [Geo.extendLoopF] at h
  | succ fuel ih =>
    intro used ring r u2 h
    rw [Geo.extendLoopF] at h
    split at h
    · cases h; rfl
    · have := ih _ _ _ _ h
      simpa using this

theorem extendLoopF_isSome (wl : List (List Geo.Point)) :
    ∀ (fuel : ℕ) (used : List Bool) (ring : List Geo.Point),
      used.count false < fuel → (Geo.extendLoopF wl fuel used ring).isSome = true := by
  intro fuel
  induction fuel with
  | zero => intro used ring h; omega
  | succ fuel ih =>
    intro used ring h
    rw [Geo.extendLoopF]
    split
    · rfl
    · rename_i i ring2 hstep
      have hu := step_unused wl used ring i ring2 hstep
      have hlt := count_false_set used i hu
      exact ih _ _ (by omega)

theorem mergeOuterLoopOpt_eq (wl : List (List Geo.Point)) :
    ∀ (idxs : List ℕ) (used : List Bool), used.length = wl.length →
      Geo.mergeOuterLoopOpt wl idxs used = some (Geo.mergeOuterLoop wl idxs used) := by
  intro idxs
  induction idxs with
  | nil => intro used _; rfl
  | cons idx rest ih =>
    intro used hlen
    rw [Geo.mergeOuterLoopOpt, Geo.mergeOuterLoop]
    split
    · exact ih used hlen
    · have hcnt : (used.set idx true).count false < wl.length + 1 := by
        have h1 : (used.set idx true).count false ≤ (used.set idx true).length :=
          List.count_le_length _ _
        simp only [List.length_set, hlen] at h1
        omega
      have hsome := extendLoopF_isSome wl (wl.length + 1) (used.set idx true)
        (wl.getD idx []) hcnt
      obtain ⟨⟨ring, used2⟩, heq⟩ := Option.isSome_iff_exists.mp hsome
      have hlen2 : used2.length = wl.length := by
        have := extendLoopF_length wl _ _ _ _ _ heq
        simp only [List.length_set, hlen] at this
        exact this
      rw [heq]
      dsimp only
      rw [ih used2 hlen2]
      rfl

/-! ## Claims C1 and C10 -/

/-- Claim C1, counterexample (status corrected).  As stated, the claim fails: a fragment list with
exactly one element is returned unchanged by `mergeWaysIntoRings`, without
the closure step or the minimum-length check.  Here the single 2-point
fragment `[(0,0),(1,0)]` is emitted as a ring that has fewer than 3 points
and whose first and last points are not equal within tolerance. -/
theorem claim_C1_counterexample :
    Geo.mergeWaysIntoRings [[((0 : ℚ), (0 : ℚ)), (1, 0)]] = [[(0, 0), (1, 0)]] ∧
    ([((0 : ℚ), (0 : ℚ)), ((1 : ℚ), (0 : ℚ))] : List Geo.Point).length < 3 ∧
    Geo.pointsEqual (Geo.wfirst [((0 : ℚ), (0 : ℚ)), (1, 0)])
      (Geo.wlast [((0 : ℚ), (0 : ℚ)), (1, 0)]) = false := by
  refine ⟨rfl, by decide, ?_⟩
  simp only [Geo.pointsEqual, Geo.wfirst, Geo.wlast, Geo.EPSILON]
  norm_num

/-- Claim C1, amended.  For every input with a number of fragments other than
one, every ring emitted by `mergeWaysIntoRings` has at least 3 points and its
first point equals its last point within the absolute tolerance `1e-7`; rings
accumulated with fewer than 3 pre-closure points are discarded.  (A
single-fragment input is returned unchanged by the source's shortcut.) -/
theorem claim_C1_amended (ways : List (List Geo.Point)) (h : ways.length ≠ 1) :
    ∀ r ∈ Geo.mergeWaysIntoRings ways,
      3 ≤ r.length ∧ Geo.pointsEqual (Geo.wfirst r) (Geo.wlast r) = true := by
  intro r hr
  match ways with
  | [] => simp [Geo.mergeWaysIntoRings] at hr
  | [w] => simp at h
  | w1 :: w2 :: rest =>
    exact mergeOuterLoop_mem _ _ _ r hr

/-- Claim C10 (confirmed).  The merge loop terminates on every finite input:
the `while (extended)` loop reaches its natural exit within a number of
iterations bounded by the number of fragments (each iteration marks one
previously unused fragment as used), so the fuel-instrumented merge never
exhausts its fragment-count fuel and agrees with `mergeWaysIntoRings` on
every input. -/
theorem claim_C10_termination :
    (∀ ways, Geo.mergeWaysIntoRingsOpt ways = some (Geo.mergeWaysIntoRings ways)) ∧
    (∀ (wl : List (List Geo.Point)) (used : List Bool) (ring : List Geo.Point)
      (fuel : ℕ), used.count false < fuel →
        (Geo.extendLoopF wl fuel used ring).isSome = true) := by
  constructor
  · intro ways
    match ways with
    | [] => rfl
    | [w] => rfl
    | w1 :: w2 :: rest =>
      exact mergeOuterLoopOpt_eq _ _ _ (by simp)
  · intro wl used ring fuel h
    exact extendLoopF_isSome wl fuel used ring h

/-- Witness for C10 at a concrete input. -/
theorem claim_C10_witness :
    Geo.mergeWaysIntoRingsOpt [[((0 : ℚ), (0 : ℚ)), (1, 0)], [(1, 0), (0, 0)]] =
      some (Geo.mergeWaysIntoRings [[((0 : ℚ), (0 : ℚ)), (1, 0)], [(1, 0), (0, 0)]]) ∧
    (Geo.extendLoopF [] 1 [] []).isSome = true :=
  ⟨claim_C10_termination.1 _, claim_C10_termination.2 [] [] [] 1 (by decide)⟩

/-! ## Claims C2 and C7 -/

/-- The S6 outer ring: a 10×10 square in `[lon, lat]` coordinates. -/
def s6Outer : List Geo.Point := [(0, 0), (10, 0), (10, 10), (0, 10), (0, 0)]

/-- The S6 relation members: one outer way and one inner way. -/
def s6Members : List Geo.Member := [⟨"way", 1, "outer"⟩, ⟨"way", 2, "inner"⟩]

/-- The S6 ways map, with way geometry as `(lat, lon)` records: way 1 is the
10×10 square, way 2 the inner ring whose first point is `(2, 2)`. -/
def s6WaysMap : List (ℕ × Option (List (ℚ × ℚ))) :=
  [(1, some [(0, 0), (0, 10), (10, 10), (10, 0), (0, 0)]),
   (2, some [(2, 2), (2, 8), (8, 8), (8, 2), (2, 2)])]

section
attribute [local semireducible] Rat.add Rat.sub Rat.mul Rat.inv

/-- Witness for C1's amended theorem: the three S5 fragments (more than one
fragment) merge into a single ring that the theorem certifies closed and of
length at least 3. -/
theorem claim_C1_witness :
    3 ≤ ([((0 : ℚ), (0 : ℚ)), (1, 0), (2, 0), (2, 1), (0, 1), (0, 0)] :
        List Geo.Point).length ∧
    Geo.pointsEqual
      (Geo.wfirst [((0 : ℚ), (0 : ℚ)), (1, 0), (2, 0), (2, 1), (0, 1), (0, 0)])
      (Geo.wlast [((0 : ℚ), (0 : ℚ)), (1, 0), (2, 0), (2, 1), (0, 1), (0, 0)]) = true :=
  claim_C1_amended
    [[((0 : ℚ), (0 : ℚ)), (1, 0)], [(2, 0), (1, 0)], [(2, 0), (2, 1), (0, 1), (0, 0)]]
    (by decide) _ (by decide)

/-- Claim C2 (code_bug).  On the S6 relation — outer 10×10 square, inner ring
with first point `(2, 2)` — the source's `isPointInPolygon` returns `false`
(its intersection expression divides by `yj - yi + xi`, the `+ xi` having
slipped into the denominator of the standard formula), so the inner ring is
dropped and a hole-less `Polygon` is emitted; the standard ray-casting test
the spec names returns `true` for the same point and ring. -/
theorem claim_C2_inner_hole_dropped :
    Geo.parseRelationGeometry s6Members s6WaysMap = some (Geo.PGeom.polygon [s6Outer]) ∧
    Geo.isPointInPolygon ((2 : ℚ), (2 : ℚ)) s6Outer = false ∧
    Geo.isPointInPolygonStd ((2 : ℚ), (2 : ℚ)) s6Outer = true := by
  refine ⟨by decide, by decide, by decide⟩

end

set_option maxRecDepth 40000 in
/-- Claim C7, counterexample (status corrected).  As stated, the claim's bound of at most 500 points
fails: a ring of 1000 points (999 copies of the origin followed by a distinct
final point) samples 500 points at step 2 — ending at index 998 — and then
appends the final point, for 501 points in the result. -/
theorem claim_C7_counterexample :
    (Ewkt.simplifyRing (List.replicate 999 ((0 : ℚ), (0 : ℚ)) ++ [((1 : ℚ), 0)]) 500).length
      = 501 := by
  decide

theorem sampledPoints_length (coords : List Geo.Point) (step : ℕ) :
    (Ewkt.sampledPoints coords step).length = (coords.length + step - 1) / step := by
  simp [Ewkt.sampledPoints]

/-- Claim C7, amended.  Here `simplifyRing` keeps every `⌈n/500⌉`-th point starting
from the first and appends the final point when it is not already the last
sample; rings with `n ≤ 500` points are returned unchanged, and the result
has at most 501 points — at most 500 sampled points plus possibly the
appended final point (the claimed bound of 500 is exceeded by one exactly
when the last sampled index misses the final point, e.g. at `n = 1000`). -/
theorem claim_C7_amended (coords : List Geo.Point) :
    (coords.length ≤ 500 → Ewkt.simplifyRing coords 500 = coords) ∧
    (Ewkt.simplifyRing coords 500).length ≤ 501 := by
  constructor
  · intro h
    rw [Ewkt.simplifyRing, if_pos h]
  · by_cases h : coords.length ≤ 500
    · rw [Ewkt.simplifyRing, if_pos h]
      omega
    · rw [Ewkt.simplifyRing, if_neg h]
      push_neg at h
      have hcnt : (Ewkt.sampledPoints coords (Ewkt.sampleStep coords.length 500)).length
          ≤ 500 := by
        rw [sampledPoints_length]
        set n := coords.length with hn
        set s := Ewkt.sampleStep n 500 with hsdef
        have hd := Nat.div_add_mod (n + 500 - 1) 500
        have hm : (n + 500 - 1) % 500 < 500 := Nat.mod_lt _ (by norm_num)
        have hseq : s = (n + 500 - 1) / 500 := by rw [hsdef, Ewkt.sampleStep]
        have hnle : n ≤ 500 * s := by omega
        have hs0 : 0 < s := by omega
        have hlt : n + s - 1 < 501 * s := by omega
        have := (Nat.div_lt_iff_lt_mul hs0).mpr hlt
        omega
      split
      · simp only [List.length_append, List.length_singleton]
        omega
      · omega

/-- Witness for C7's amended theorem: a 4-point ring is below the threshold
and is returned unchanged, within the 501-point bound. -/
theorem claim_C7_witness :
    Ewkt.simplifyRing [((0 : ℚ), (0 : ℚ)), (1, 0), (1, 1), (0, 0)] 500
      = [((0 : ℚ), (0 : ℚ)), (1, 0), (1, 1), (0, 0)] ∧
    (Ewkt.simplifyRing [((0 : ℚ), (0 : ℚ)), (1, 0), (1, 1), (0, 0)] 500).length ≤ 501 :=
  ⟨(claim_C7_amended _).1 (by decide), (claim_C7_amended _).2⟩

/-! ## Claim C3 -/

theorem successOutcome_spec (a : Retry.Outcome) (h : Retry.successOutcome a = true) :
    ∃ s, a = Retry.Outcome.resp s true ∧ Retry.okStatus s = true := by
  cases a with
  | err => simp [Retry.successOutcome] at h
  | resp s goodJson =>
    simp only [Retry.successOutcome, Bool.and_eq_true] at h
    exact ⟨s, by rw [h.2], h.1⟩

theorem retryableOutcome_spec (a : Retry.Outcome) (h : Retry.retryableOutcome a = true) :
    a = Retry.Outcome.err ∨
      ∃ s g, a = Retry.Outcome.resp s g ∧ Retry.okStatus s = false ∧
        Retry.retryableStatus s = true := by
  cases a with
  | err => exact Or.inl rfl
  | resp s goodJson =>
    simp only [Retry.retryableOutcome, Bool.and_eq_true, Bool.not_eq_true'] at h
    exact Or.inr ⟨s, goodJson, rfl, h.1, h.2⟩

theorem retryGo_calls_pos (baseDelayMs : ℕ) (o : ℕ → Retry.Outcome)
    (fuel attempt : ℕ) (h : 0 < fuel) :
    0 < (Retry.retryGo baseDelayMs o attempt fuel).calls := by
  match fuel, h with
  | fuel + 1, _ =>
    rw [Retry.retryGo]
    rcases o attempt with _ | ⟨s, goodJson⟩ <;> dsimp only <;> split
    · simp
    · simp
    · simp
    · split
      · simp
      · simp

theorem delays_cons_eq (baseDelayMs attempt c : ℕ) (h : 0 < c) (d : List ℕ)
    (hd : d = (List.range (c - 1)).map (fun k => baseDelayMs * 2 ^ (attempt + 1 + k))) :
    baseDelayMs * 2 ^ attempt :: d =
      (List.range c).map (fun k => baseDelayMs * 2 ^ (attempt + k)) := by
  subst hd
  rw [show c = (c - 1) + 1 by omega, List.range_succ_eq_map, List.map_cons, List.map_map]
  congr 1
  simp only [Nat.add_sub_cancel]
  apply List.map_congr_left
  intro k _
  simp only [Function.comp_apply, Nat.succ_eq_add_one]
  rw [show attempt + (k + 1) = attempt + 1 + k from by omega]

theorem retryGo_calls_delays (baseDelayMs : ℕ) (o : ℕ → Retry.Outcome) :
    ∀ (fuel attempt : ℕ), Retry.MAX_ATTEMPTS ≤ fuel + attempt →
      (Retry.retryGo baseDelayMs o attempt fuel).calls ≤ fuel ∧
      (Retry.retryGo baseDelayMs o attempt fuel).delays =
        (List.range ((Retry.retryGo baseDelayMs o attempt fuel).calls - 1)).map
          (fun k => baseDelayMs * 2 ^ (attempt + k)) := by
  intro fuel
  induction fuel with
  | zero => intro attempt _; simp [Retry.retryGo]
  | succ fuel ih =>
    intro attempt hsum
    rw [Retry.retryGo]
    rcases ho : o attempt with _ | ⟨s, goodJson⟩ <;> dsimp only
    · split
      · rename_i hlt
        have hfuel : 0 < fuel := by
          simp only [Retry.MAX_ATTEMPTS] at hsum hlt
          omega
        obtain ⟨ihc, ihd⟩ := ih (attempt + 1) (by omega)
        have hpos := retryGo_calls_pos baseDelayMs o fuel (attempt + 1) hfuel
        refine ⟨by dsimp only; omega, ?_⟩
        dsimp only
        rw [Nat.add_sub_cancel]
        exact delays_cons_eq baseDelayMs attempt _ hpos _ ihd
      · exact ⟨by dsimp only; omega, by dsimp only; simp⟩
    · split
      · exact ⟨by dsimp only; omega, by dsimp only; simp⟩
      · split
        · rename_i hcond
          have hlt : attempt < Retry.MAX_ATTEMPTS - 1 := by
            simp only [Bool.and_eq_true, decide_eq_true_eq] at hcond
            exact hcond.2
          have hfuel : 0 < fuel := by
            simp only [Retry.MAX_ATTEMPTS] at hsum hlt
            omega
          obtain ⟨ihc, ihd⟩ := ih (attempt + 1) (by omega)
          have hpos := retryGo_calls_pos baseDelayMs o fuel (attempt + 1) hfuel
          refine ⟨by dsimp only; omega, ?_⟩
          dsimp only
          rw [Nat.add_sub_cancel]
          exact delays_cons_eq baseDelayMs attempt _ hpos _ ihd
        · exact ⟨by dsimp only; omega, by dsimp only; simp⟩

/-- Claim C3 (confirmed).  For every sequence of fetch outcomes: at most 3
fetch calls are made; the backoff before 1-indexed attempt `n` is
`baseDelayMs * 2^(n-2)`, so the delay list is the `calls - 1` long prefix of
`[baseDelayMs, 2*baseDelayMs]` — 1000 ms then 2000 ms at the default base
delay; a response whose status is neither 2xx nor retryable
(429/500/502/503/504) fails after exactly 1 call; and a run of retryable
outcomes ended by an ok response with well-formed JSON succeeds with call
count equal to the number of attempts until success. -/
theorem claim_C3_retry (baseDelayMs : ℕ) (o : ℕ → Retry.Outcome) :
    (Retry.fetchWithRetry baseDelayMs o).calls ≤ 3 ∧
    (Retry.fetchWithRetry baseDelayMs o).delays =
      (List.range ((Retry.fetchWithRetry baseDelayMs o).calls - 1)).map
        (fun k => baseDelayMs * 2 ^ k) ∧
    (∀ s goodJson, o 0 = Retry.Outcome.resp s goodJson → Retry.okStatus s = false →
      Retry.retryableStatus s = false →
      Retry.fetchWithRetry baseDelayMs o = ⟨1, [], .failHttp s⟩) ∧
    (∀ k, k < 3 → (∀ j, j < k → Retry.retryableOutcome (o j) = true) →
      Retry.successOutcome (o k) = true →
      (Retry.fetchWithRetry baseDelayMs o).calls = k + 1 ∧
      (Retry.fetchWithRetry baseDelayMs o).result = .success) := by
  have hmain := retryGo_calls_delays baseDelayMs o Retry.MAX_ATTEMPTS 0 (by omega)
  refine ⟨hmain.1, by simpa using hmain.2, ?_, ?_⟩
  · intro s goodJson h0 hok hretry
    simp only [Retry.fetchWithRetry, Retry.MAX_ATTEMPTS]
    simp [Retry.retryGo, h0, hok, hretry]
  · intro k hk hpre hsucc
    obtain ⟨s, hos, hoks⟩ := successOutcome_spec _ hsucc
    simp only [Retry.fetchWithRetry, Retry.MAX_ATTEMPTS]
    match k, hk with
    | 0, _ =>
      simp [Retry.retryGo, hos, hoks]
    | 1, _ =>
      rcases retryableOutcome_spec _ (hpre 0 (by omega)) with h0 | ⟨s0, g0, h0, hok0, hr0⟩
      · simp [Retry.retryGo, h0, hos, hoks, Retry.MAX_ATTEMPTS]
      · simp [Retry.retryGo, h0, hok0, hr0, hos, hoks, Retry.MAX_ATTEMPTS]
    | 2, _ =>
      rcases retryableOutcome_spec _ (hpre 0 (by omega)) with h0 | ⟨s0, g0, h0, hok0, hr0⟩ <;>
        rcases retryableOutcome_spec _ (hpre 1 (by omega)) with h1 | ⟨s1, g1, h1, hok1, hr1⟩
      · simp [Retry.retryGo, h0, h1, hos, hoks, Retry.MAX_ATTEMPTS]
      · simp [Retry.retryGo, h0, h1, hok1, hr1, hos, hoks, Retry.MAX_ATTEMPTS]
      · simp [Retry.retryGo, h0, hok0, hr0, h1, hos, hoks, Retry.MAX_ATTEMPTS]
      · simp [Retry.retryGo, h0, hok0, hr0, h1, hok1, hr1, hos, hoks, Retry.MAX_ATTEMPTS]

/-- Witness for C3 at a concrete outcome sequence: a 429 on the first
attempt followed by a successful response — at most 3 calls, exactly 2 calls,
success. -/
theorem claim_C3_witness :
    (Retry.fetchWithRetry 1000
        (fun n => if n = 0 then .resp 429 true else .resp 200 true)).calls ≤ 3 ∧
    (Retry.fetchWithRetry 1000
        (fun n => if n = 0 then .resp 429 true else .resp 200 true)).calls = 2 ∧
    (Retry.fetchWithRetry 1000
        (fun n => if n = 0 then .resp 429 true else .resp 200 true)).result = .success := by
  have h := claim_C3_retry 1000 (fun n => if n = 0 then .resp 429 true else .resp 200 true)
  have h4 := h.2.2.2 1 (by omega) (fun j hj => by
    interval_cases j
    decide) (by decide)
  exact ⟨h.1, h4.1, h4.2⟩

/-! ## Claim C4 -/

/-- Claim C4 (code_bug).  Discovery (`fetchAllRelationIds`) does keep the
previous level's relations as parents across an empty level — here level 3 is
empty, yet level 4 is still discovered as a child of the level-2 parent and
recorded in the relation map.  But the per-level loop of `importCountry`
breaks at the first level absent from the map ("No relations at level 3,
stopping"), so the non-empty level 4 is never processed: its geometry is
neither fetched nor persisted, contrary to the claim (and to scenario S2 and
the skip-not-abort rule the discovery code itself implements). -/
theorem claim_C4_empty_level_break :
    Rel.fetchAllRelationIds (fun p L => if p = 1 && L = 4 then [7] else []) [1] 11 =
      [(2, [1]), (4, [7])] ∧
    Rel.processedLevels [(2, [1]), (4, [7])] = [2] ∧
    (4 ∈ (Rel.fetchAllRelationIds (fun p L => if p = 1 && L = 4 then [7] else [])
        [1] 11).map Prod.fst) ∧
    4 ∉ Rel.processedLevels [(2, [1]), (4, [7])] := by
  refine ⟨by decide, by decide, by decide, by decide⟩

/-! ## Claim C5 -/

/-- Claim C5 (code_bug).  The orchestrator's `extractWikidataIds` maps each
OSM `wikidata` tag through `.replace('Q', '')`, stripping the `Q` prefix:
the tag `Q240` is handed to the Wikidata batch client as `240`, which no
longer matches `^Q[0-9]+$` — breaking the repository's own guide
("CRITICAL: Always preserve Q prefix throughout pipeline").  The transform's
`extractWikidataId`, by contrast, strips only the entity-URL prefix and
keeps the `Q`. -/
theorem claim_C5_q_prefix_stripped :
    Wd.extractWikidataIds [some "Q240"] = ["240"] ∧
    Wd.matchesQid "240" = false ∧
    Wd.matchesQid "Q240" = true ∧
    Wd.extractWikidataId "Q240" = "Q240" ∧
    Wd.extractWikidataId "http://www.wikidata.org/entity/Q240" = "Q240" := by
  refine ⟨by decide, by decide, by decide, by decide, by decide⟩

/-! ## Claim C6 -/

/-- A well-formed multipolygon row, as produced by `geometryToEWKT` for
multi-outer geometries. -/
def mpBoundary : DbT.AdminBoundaryImport :=
  ⟨"Q1", "Category", 4, "Example", "SRID=4326;MULTIPOLYGON(((0 0,1 0,1 1,0 0)))"⟩

/-- Claim C6, counterexample (status corrected).  As stated, the claim fails on multipolygons: the
validator requires the exact prefix `SRID=4326;POLYGON((`, so a well-formed
`SRID=4326;MULTIPOLYGON(...)` value does NOT pass validation — the row is
dropped (counted).  A well-formed `SRID=4326;POLYGON((...))` with 4
coordinates passes. -/
theorem claim_C6_counterexample :
    DbT.isValidGeom "SRID=4326;MULTIPOLYGON(((0 0,1 0,1 1,0 0)))" = false ∧
    DbT.validateGeometries [mpBoundary] = ([], 1) ∧
    DbT.isValidGeom "SRID=4326;POLYGON((0 0,1 0,1 1,0 0))" = true := by
  refine ⟨by decide, by decide, by decide⟩

theorem validateGeometries_fold (bs : List DbT.AdminBoundaryImport) :
    ∀ (acc : List DbT.AdminBoundaryImport) (n : ℕ),
      bs.foldl (fun acc boundary =>
        if DbT.isValidGeom boundary.geom then (acc.1 ++ [boundary], acc.2)
        else (acc.1, acc.2 + 1)) (acc, n) =
      (acc ++ bs.filter (fun b => DbT.isValidGeom b.geom),
        n + (bs.filter (fun b => !DbT.isValidGeom b.geom)).length) := by
  induction bs with
  | nil => intro acc n; simp
  | cons b t ih =>
    intro acc n
    by_cases hb : DbT.isValidGeom b.geom
    · simp [List.foldl_cons, hb, ih]
    · simp only [List.foldl_cons, if_neg hb, ih, List.filter_cons,
        Bool.not_eq_true'] at *
      simp [hb]
      omega

/-- Claim C6, amended.  The transform's geometry validation accepts a stored
geometry text if and only if it starts with the exact prefix
`SRID=4326;POLYGON((` and the (greedy) `POLYGON\(\((.+)\)\)` capture holds at
least 4 comma-separated pieces — multipolygon values are rejected, and ring
closure is not inspected.  Failing rows are dropped and counted, never
fatally: the function returns the kept rows together with the invalid
count. -/
theorem claim_C6_amended (bs : List DbT.AdminBoundaryImport) :
    (DbT.validateGeometries bs).1 = bs.filter (fun b => DbT.isValidGeom b.geom) ∧
    (DbT.validateGeometries bs).2 =
      (bs.filter (fun b => !DbT.isValidGeom b.geom)).length := by
  have h := validateGeometries_fold bs [] 0
  rw [DbT.validateGeometries, h]
  simp

/-- Witness for C6's amended theorem at a concrete row list: the polygon row
is kept, the multipolygon row is dropped and counted. -/
theorem claim_C6_witness :
    (DbT.validateGeometries [mpBoundary]).1 =
      ([mpBoundary].filter (fun b => DbT.isValidGeom b.geom)) ∧
    (DbT.validateGeometries [mpBoundary]).2 =
      (([mpBoundary].filter (fun b => !DbT.isValidGeom b.geom)).length) :=
  claim_C6_amended [mpBoundary]

/-! ## Claim C8 -/

/-- The row produced by a failed run followed by a re-run that completes. -/
def staleErrorRow : Progress.Row :=
  { currentAdminLevel := 2, status := .completed, relationsFetched := 0,
    errors := 0, startedAt := true, completedAt := true, lastError := some "boom" }

/-- Claim C8, counterexample (status corrected).  As stated, the claim fails: neither
`initializeProgress` (whose `ON CONFLICT` update does not touch
`last_error`) nor `markCompleted` clears `last_error`, so the sequence
initialize → markFailed → initialize → markCompleted ends in a row with
`status = completed` and `last_error = 'boom'` — non-null, contradicting
"every row with status 'completed' has … last_error null". -/
theorem claim_C8_counterexample :
    Progress.runOps [.init, .fail "boom", .init, .complete] none = some staleErrorRow ∧
    staleErrorRow.status = Progress.PStatus.completed ∧
    staleErrorRow.lastError ≠ none := by
  refine ⟨rfl, rfl, by decide⟩

theorem rowConsistent_step (op : Progress.Op) (s : Option Progress.Row)
    (h : Progress.rowConsistent s = true) :
    Progress.rowConsistent (Progress.runOp op s) = true := by
  cases op with
  | init =>
    cases s with
    | none => rfl
    | some r => rfl
  | levelUpdate lvl cnt =>
    cases s with
    | none => rfl
    | some r =>
      simp only [Progress.rowConsistent, Bool.and_eq_true] at h ⊢
      simpa [Progress.runOp, Progress.updateProgress] using h
  | complete =>
    cases s with
    | none => rfl
    | some r =>
      simp [Progress.runOp, Progress.markCompleted, Progress.updateProgress,
        Progress.rowConsistent]
  | fail e =>
    cases s with
    | none => rfl
    | some r =>
      simp [Progress.runOp, Progress.markFailed, Progress.updateProgress,
        Progress.rowConsistent]

/-- Claim C8, amended.  After any sequence of progress-tracker operations
starting from an absent row, every resulting row satisfies: status
`completed` implies `completed_at` is set, and status `failed` implies
`last_error` is set.  (The claim's further assertion that completed rows
have `last_error` null fails — see the counterexample: `last_error` is never
cleared.) -/
theorem claim_C8_amended (ops : List Progress.Op) :
    Progress.rowConsistent (Progress.runOps ops none) = true := by
  have hgen : ∀ (l : List Progress.Op) (s : Option Progress.Row),
      Progress.rowConsistent s = true →
      Progress.rowConsistent (Progress.runOps l s) = true := by
    intro l
    induction l with
    | nil => intro s h; exact h
    | cons op rest ih =>
      intro s h
      exact ih _ (rowConsistent_step op s h)
  exact hgen ops none rfl

/-! ## Claim C9 -/

/-- JavaScript `Map.prototype.get` on the association-list model of a JavaScript
`Map`. -/
def Wd.mapGet : List (String × String) → String → Option String
  | [], _ => none
  | (k0, v0) :: t, k => if k0 = k then some v0 else Wd.mapGet t k

theorem mapGet_mapSet_isSome (m : List (String × String)) (k v kq : String) :
    (Wd.mapGet (Wd.mapSet m k v) kq).isSome = true ↔
      (kq = k ∨ (Wd.mapGet m kq).isSome = true) := by
  induction m with
  | nil =>
    by_cases h : k = kq
    · subst h
      simp [Wd.mapSet, Wd.mapGet]
    · simp [Wd.mapSet, Wd.mapGet, h, Ne.symm h]
  | cons e t ih =>
    obtain ⟨k0, v0⟩ := e
    by_cases h0 : k0 = k
    · subst h0
      by_cases hq : k0 = kq
      · subst hq
        simp [Wd.mapSet, Wd.mapGet]
      · simp [Wd.mapSet, Wd.mapGet, hq, Ne.symm hq]
    · by_cases hq : k0 = kq
      · subst hq
        simp [Wd.mapSet, Wd.mapGet, h0]
      · simp only [Wd.mapSet, if_neg h0, Wd.mapGet, if_neg hq]
        exact ih

theorem foldl_mapSet_isSome (id : String) (entries : List (String × String)) :
    ∀ m : List (String × String),
      ((Wd.mapGet (entries.foldl (fun acc e => Wd.mapSet acc e.1 e.2) m) id).isSome
          = true) ↔
        ((Wd.mapGet m id).isSome = true ∨ ∃ e ∈ entries, e.1 = id) := by
  induction entries with
  | nil => intro m; simp
  | cons e t ih =>
    intro m
    rw [List.foldl_cons, ih, mapGet_mapSet_isSome]
    constructor
    · rintro ((h | h) | h)
      · exact Or.inr ⟨e, List.mem_cons_self e t, h.symm⟩
      · exact Or.inl h
      · obtain ⟨e2, he2, hid⟩ := h
        exact Or.inr ⟨e2, List.mem_cons_of_mem e he2, hid⟩
    · rintro (h | ⟨e2, he2, hid⟩)
      · exact Or.inl (Or.inr h)
      · rcases List.mem_cons.mp he2 with rfl | hmem
        · exact Or.inl (Or.inl hid.symm)
        · exact Or.inr ⟨e2, hmem, hid⟩

theorem mapSet_keys (id : String) (m : List (String × String)) (k v : String) :
    (∃ e ∈ Wd.mapSet m k v, e.1 = id) ↔ (k = id ∨ ∃ e ∈ m, e.1 = id) := by
  induction m with
  | nil => simp [Wd.mapSet]
  | cons e0 t ih =>
    obtain ⟨k0, v0⟩ := e0
    by_cases h0 : k0 = k <;> simp_all [Wd.mapSet] <;> aesop

theorem procStep_keys (id : String) (m : List (String × String))
    (en : String × Wd.WdEntity) :
    (∃ e ∈ Wd.procStep m en, e.1 = id) ↔
      ((∃ e ∈ m, e.1 = id) ∨
        (en.1 = id ∧ en.2.missing = false ∧ ∃ c, en.2.value = some c ∧ c ≠ "")) := by
  unfold Wd.procStep
  cases hm : en.2.missing
  · cases hv : en.2.value with
    | none => simp [hv]
    | some c =>
      by_cases hc : c = ""
      · simp [hv, hc]
      · simp only [Bool.false_eq_true, if_false, hv, if_neg hc, mapSet_keys]
        aesop
  · simp

theorem foldl_procStep (id : String) (es : List (String × Wd.WdEntity)) :
    ∀ m : List (String × String),
      (∃ e ∈ es.foldl Wd.procStep m, e.1 = id) ↔
        ((∃ e ∈ m, e.1 = id) ∨
          ∃ en, (id, en) ∈ es ∧ en.missing = false ∧
            ∃ c, en.value = some c ∧ c ≠ "") := by
  induction es with
  | nil => intro m; simp
  | cons p t ih =>
    intro m
    rw [List.foldl_cons, ih, procStep_keys]
    constructor
    · rintro ((h | ⟨hid, hmiss, c, hc, hne⟩) | ⟨en, hmem, hq⟩)
      · exact Or.inl h
      · refine Or.inr ⟨p.2, ?_, hmiss, c, hc, hne⟩
        rw [← hid, Prod.mk.eta]
        exact List.mem_cons_self _ _
      · exact Or.inr ⟨en, List.mem_cons_of_mem _ hmem, hq⟩
    · rintro (h | ⟨en, hmem, hmiss, c, hc, hne⟩)
      · exact Or.inl (Or.inl h)
      · rcases List.mem_cons.mp hmem with heq | hmem2
        · refine Or.inl (Or.inr ?_)
          have h1 : p.1 = id := by rw [← heq]
          have h2 : p.2 = en := by rw [← heq]
          exact ⟨h1, by rw [h2]; exact hmiss, c, by rw [h2]; exact hc, hne⟩
        · exact Or.inr ⟨en, hmem2, hmiss, c, hc, hne⟩

theorem processBatch_keys (id : String) (o : Wd.BatchOutcome) :
    (∃ e ∈ Wd.processBatch o, e.1 = id) ↔
      (∃ es, o = Wd.BatchOutcome.response (some es) ∧
        ∃ en, (id, en) ∈ es ∧ en.missing = false ∧
          ∃ c, en.value = some c ∧ c ≠ "") := by
  cases o with
  | failure => simp [Wd.processBatch]
  | response entities =>
    cases entities with
    | none => simp [Wd.processBatch]
    | some es =>
      rw [Wd.processBatch, foldl_procStep]
      simp

theorem outer_fold_mapGet (id : String) (resp : ℕ → Wd.BatchOutcome) (ks : List ℕ) :
    ∀ fm : List (String × String),
      ((Wd.mapGet (ks.foldl (fun finalMap k =>
          (Wd.processBatch (resp (k + 1))).foldl
            (fun m e => Wd.mapSet m e.1 e.2) finalMap) fm) id).isSome = true) ↔
        ((Wd.mapGet fm id).isSome = true ∨
          ∃ k ∈ ks, ∃ e ∈ Wd.processBatch (resp (k + 1)), e.1 = id) := by
  induction ks with
  | nil => intro fm; simp
  | cons k0 t ih =>
    intro fm
    rw [List.foldl_cons, ih, foldl_mapSet_isSome]
    constructor
    · rintro ((h | h) | ⟨k, hk, h⟩)
      · exact Or.inl h
      · exact Or.inr ⟨k0, List.mem_cons_self _ _, h⟩
      · exact Or.inr ⟨k, List.mem_cons_of_mem _ hk, h⟩
    · rintro (h | ⟨k, hk, h⟩)
      · exact Or.inl (Or.inl h)
      · rcases List.mem_cons.mp hk with rfl | hmem
        · exact Or.inl (Or.inr h)
        · exact Or.inr ⟨k, hmem, h⟩

/-- Claim C9, amended.  A whole-batch failure contributes the empty sub-map
and never fails the operation (the model of `fetchWikimediaCategoriesBatch`
is total over arbitrary batch outcomes); the returned map contains an entry
for an id exactly when some batch response within range holds a non-missing
entity for that id whose `claims.P373[0].mainsnak.datavalue.value` is
present *and non-empty* — the source guards insertion with the truthiness
test `if (category)`, so an empty-string value is also omitted. -/
theorem claim_C9_amended (wikidataIds : List String) (resp : ℕ → Wd.BatchOutcome)
    (id : String) :
    Wd.processBatch .failure = [] ∧
    ((Wd.mapGet (Wd.fetchWikimediaCategoriesBatch wikidataIds resp) id).isSome = true ↔
      ∃ k < (Wd.toBatches Wd.WIKIDATA_BATCH
          ((jsSetDedup wikidataIds).filter (fun i => i ≠ ""))).length,
        ∃ es, resp (k + 1) = Wd.BatchOutcome.response (some es) ∧
          ∃ en, (id, en) ∈ es ∧ en.missing = false ∧
            ∃ c, en.value = some c ∧ c ≠ "") := by
  refine ⟨rfl, ?_⟩
  rw [Wd.fetchWikimediaCategoriesBatch, outer_fold_mapGet]
  simp only [Wd.mapGet, Option.isSome_none, Bool.false_eq_true, false_or,
    List.mem_range, processBatch_keys]

/-- Claim C9, counterexample (status corrected).  The claim's "exactly when … value present" fails on
an empty-string value: this batch response holds a non-missing entity for
`Q1` whose P373 value is present (`some ""`), yet the returned map is empty
because the source's truthiness test rejects the empty string. -/
theorem claim_C9_counterexample :
    Wd.fetchWikimediaCategoriesBatch ["Q1"]
      (fun _ => .response (some [("Q1", ⟨false, some ""⟩)])) = [] ∧
    ((⟨false, some ""⟩ : Wd.WdEntity).missing = false ∧
      (⟨false, some ""⟩ : Wd.WdEntity).value.isSome = true) ∧
    ("Q1", (⟨false, some ""⟩ : Wd.WdEntity)) ∈
      [("Q1", (⟨false, some ""⟩ : Wd.WdEntity))] := by
  refine ⟨by decide, ⟨rfl, rfl⟩, List.mem_singleton.mpr rfl⟩

/-- Witness for C9's amended theorem at a concrete run: a single batch whose
response carries a non-empty category for `Q1` yields a map with an entry
for `Q1`. -/
theorem claim_C9_witness :
    (Wd.mapGet (Wd.fetchWikimediaCategoriesBatch ["Q1"]
        (fun _ => .response (some [("Q1", ⟨false, some "Category"⟩)]))) "Q1").isSome
      = true := by
  refine (claim_C9_amended ["Q1"]
      (fun _ => .response (some [("Q1", ⟨false, some "Category"⟩)])) "Q1").2.mpr ?_
  refine ⟨0, by decide, [("Q1", ⟨false, some "Category"⟩)], rfl,
    ⟨false, some "Category"⟩, List.mem_singleton.mpr rfl, rfl, "Category", rfl, by decide⟩

/-- Witness for C8's amended theorem at a concrete operation sequence. -/
theorem claim_C8_witness :
    Progress.rowConsistent
      (Progress.runOps [.init, .fail "boom", .init, .complete] none) = true :=
  claim_C8_amended [.init, .fail "boom", .init, .complete]
